import Mathlib

/-!
Shallow embedding of the core of ChangelogWatcher (`src/changelog.ts`,
`src/hash-store.ts`) and proofs about it.

The TypeScript source is translated function by function.  JavaScript strings
are modelled as Lean `String` (code-unit comparison coincides with Lean's
code-point order on the ASCII data these functions handle); JavaScript numbers
are modelled as `Nat`/`Int` (a documentation note marks the one place where
IEEE rounding above 2^53 could diverge); fetching is modelled by passing the
fetched content as an argument; the persisted watermark store is modelled as a
function from the written record to the file's content and back.
-/

namespace ChangelogWatcher

/-- JavaScript truthiness of a `string | null | undefined` value:
`null`/`undefined` and the empty string are falsy. -/
def jsTruthy : Option String → Bool
  | none => false
  | some s => !(s == "")

/-- whitespace class used to model JavaScript's `\s` and `trim()` on the ASCII
range (the additional Unicode space characters of `\s` are not modelled). -/
def jsWs (c : Char) : Bool :=
  c == ' ' || c == '\t' || c == '\n' || c == '\r' || c == '\x0b' || c == '\x0c'

/-- model of `String.prototype.trim`. -/
def jsTrim (l : List Char) : List Char :=
  ((l.dropWhile jsWs).reverse.dropWhile jsWs).reverse

/-- numeric value of a list of decimal digits (as JavaScript `parseInt` on a
digit-only string). -/
def digitsToNat (l : List Char) : Nat :=
  l.foldl (fun n c => 10 * n + (c.toNat - 48)) 0

/-- the constant `Number.MAX_SAFE_INTEGER`. -/
def maxSafeInteger : Nat := 9007199254740991

/-- lexicographic code-point comparison of character lists, modelling
JavaScript's code-unit string order `a < b` (identical on ASCII data). -/
def ltChars : List Char → List Char → Bool
  | [], [] => false
  | [], _ :: _ => true
  | _ :: _, [] => false
  | a :: as, b :: bs =>
    if a.toNat < b.toNat then true
    else if b.toNat < a.toNat then false
    else ltChars as bs

/-- model of JavaScript string comparison `a < b`. -/
def jsLt (a b : String) : Bool := ltChars a.data b.data

/-- substring test (`String.prototype.includes`), used to state the
"summary contains the body line" facts. -/
def containsSub (hay needle : String) : Bool :=
  go hay.data
where
  /-- scan every suffix of the haystack for the needle as a prefix. -/
  go : List Char → Bool
    | [] => needle.data.isPrefixOf []
    | l@(_ :: rest) => needle.data.isPrefixOf l || go rest

-- =========================================================================
-- semver: the parts of the `semver` npm library used by `compareVersions`
-- (`clean`, `coerce`, `compare`), modelled from the library's documented
-- SemVer 2.0.0 grammar and precedence rules, since the library itself is an
-- external dependency of the repository.
-- =========================================================================

/-- a dot-separated pre-release identifier: numeric identifiers are compared
numerically, alphanumeric ones lexically.  JavaScript compares numeric
identifiers as IEEE doubles; we use exact `Nat` comparison, which agrees below
2^53 (larger numeric pre-release identifiers are not exercised here). -/
abbrev PreId := Sum Nat String

/-- a parsed semantic version: numeric triple plus pre-release identifiers
(build metadata is validated by the grammar but ignored by comparison). -/
structure SemVer where
  major : Nat
  minor : Nat
  patch : Nat
  pre : List PreId
deriving DecidableEq

/-- characters allowed in pre-release / build identifiers: `[0-9A-Za-z-]`. -/
def isIdentChar (c : Char) : Bool := c.isDigit || c.isAlpha || c == '-'

/-- split a character list at every occurrence of a separator character
(like `String.prototype.split` with a one-character separator). -/
def splitOnChar (sep : Char) : List Char → List (List Char)
  | [] => [[]]
  | c :: rest =>
    if c = sep then [] :: splitOnChar sep rest
    else
      match splitOnChar sep rest with
      | t :: ts => (c :: t) :: ts
      | [] => [[c]]

/-- split a character list at every `'.'`. -/
def splitOnDot : List Char → List (List Char) := splitOnChar '.'

/-- parse one numeric component `(0|[1-9]\d*)`, rejecting leading zeros and
values above `MAX_SAFE_INTEGER` (the `SemVer` constructor throws on those). -/
def parseNumComponent (l : List Char) : Option (Nat × List Char) :=
  let ds := l.takeWhile Char.isDigit
  let rest := l.dropWhile Char.isDigit
  if ds.isEmpty then none
  else if ds.length > 1 && ds.headD ' ' == '0' then none
  else
    let n := digitsToNat ds
    if n ≤ maxSafeInteger then some (n, rest) else none

/-- parse one pre-release identifier: `0|[1-9]\d*|\d*[a-zA-Z-][0-9a-zA-Z-]*`.
All-digit identifiers become numeric (they are compared numerically), others
stay strings. -/
def parsePreIdent (tok : List Char) : Option PreId :=
  if tok.isEmpty then none
  else if !tok.all isIdentChar then none
  else if tok.all Char.isDigit then
    if tok.length > 1 && tok.headD ' ' == '0' then none
    else some (.inl (digitsToNat tok))
  else some (.inr (String.mk tok))

/-- parse every pre-release identifier of a dash-introduced section. -/
def parsePreList (l : List Char) : Option (List PreId) :=
  (splitOnDot l).mapM parsePreIdent

/-- validate the build-metadata section: dot-separated nonempty
`[0-9a-zA-Z-]+` identifiers. -/
def validBuild (l : List Char) : Bool :=
  (splitOnDot l).all fun tok => !tok.isEmpty && tok.all isIdentChar

/-- expect a single literal character. -/
def expectChar (c : Char) : List Char → Option (List Char)
  | x :: rest => if x = c then some rest else none
  | [] => none

/-- parse the strict semver grammar
`major.minor.patch(-prerelease)?(+build)?` against the whole input. -/
def parseSemVerChars (l : List Char) : Option SemVer := do
  let (major, r1) ← parseNumComponent l
  let r2 ← expectChar '.' r1
  let (minor, r3) ← parseNumComponent r2
  let r4 ← expectChar '.' r3
  let (patch, r5) ← parseNumComponent r4
  match r5 with
  | [] => some ⟨major, minor, patch, []⟩
  | '-' :: r6 =>
    let preSec := r6.takeWhile (· ≠ '+')
    let rest := r6.dropWhile (· ≠ '+')
    let pre ← parsePreList preSec
    match rest with
    | [] => some ⟨major, minor, patch, pre⟩
    | '+' :: build => if validBuild build then some ⟨major, minor, patch, pre⟩ else none
    | _ => none
  | '+' :: build => if validBuild build then some ⟨major, minor, patch, []⟩ else none
  | _ => none

/-- model of `semver.clean`: trim, strip a leading run of `=`/`v`, enforce the
256-character limit, then parse the strict grammar. -/
def semverClean (s : String) : Option SemVer :=
  let stripped := (jsTrim s.data).dropWhile fun c => c == '=' || c == 'v'
  if stripped.length > 256 then none else parseSemVerChars stripped

/-- helper of `coerceSemVer`: after a `'.'`, take a following 1–16 digit run as
the next numeric component (per the library's `COERCE` regular expression). -/
def coerceTakeComp (l : List Char) : Option (List Char) × List Char :=
  match l with
  | '.' :: rest =>
    let run := rest.takeWhile Char.isDigit
    if run.isEmpty then (none, l)
    else if run.length ≤ 16 then (some run, rest.dropWhile Char.isDigit)
    else (none, l)
  | _ => (none, l)

/-- validate one coerced component the way `parse` of the rebuilt
`major.minor.patch` string would (no leading zeros, `MAX_SAFE_INTEGER` cap). -/
def coerceComp : Option (List Char) → Option Nat
  | none => some 0
  | some run =>
    if run.length > 1 && run.headD ' ' == '0' then none
    else
      let n := digitsToNat run
      if n ≤ maxSafeInteger then some n else none

/-- assemble the coerced version from the matched digit runs. -/
def coerceBuild (majorRun : List Char) (after : List Char) : Option SemVer := do
  if majorRun.length > 1 && majorRun.headD ' ' == '0' then none
  else
    let major := digitsToNat majorRun
    if major ≤ maxSafeInteger then
      let (minorRun, after2) := coerceTakeComp after
      let patchRun :=
        match minorRun with
        | some _ => (coerceTakeComp after2).1
        | none => none
      let minor ← coerceComp minorRun
      let patch ← coerceComp patchRun
      some ⟨major, minor, patch, []⟩
    else none

/-- scan for the first digit run that can start a coerced version; runs longer
than 16 digits cannot match the `COERCE` pattern and are skipped whole. -/
def coerceScan : Nat → List Char → Option SemVer
  | 0, _ => none
  | _, [] => none
  | fuel + 1, c :: rest =>
    if c.isDigit then
      let run := (c :: rest).takeWhile Char.isDigit
      let after := (c :: rest).dropWhile Char.isDigit
      if run.length ≤ 16 then coerceBuild run after
      else coerceScan fuel after
    else coerceScan fuel rest

/-- model of `semver.coerce`: extract the first `major(.minor(.patch)?)?`
digit-run group anywhere in the string. -/
def coerceSemVer (s : String) : Option SemVer :=
  coerceScan (s.data.length + 1) s.data

/-- model of `semver.clean(a) || semver.coerce(a)?.version` from `compareVersions`. -/
def cleanVersion (s : String) : Option SemVer :=
  (semverClean s).orElse fun _ => coerceSemVer s

/-- three-way comparison of `Nat` written with `compare` (numeric comparison
of version components). -/
def cmpNat (m n : Nat) : Ordering := compare m n

/-- three-way JavaScript string comparison (`a < b ? -1 : a > b ? 1 : 0`). -/
def cmpStr (s t : String) : Ordering :=
  if jsLt s t then .lt else if jsLt t s then .gt else .eq

/-- model of `compareIdentifiers` of the semver library: numeric identifiers compare
numerically, numeric sorts before alphanumeric, alphanumeric compare lexically. -/
def cmpPreId : PreId → PreId → Ordering
  | .inl m, .inl n => cmpNat m n
  | .inl _, .inr _ => .lt
  | .inr _, .inl _ => .gt
  | .inr s, .inr t => cmpStr s t

/-- element-wise comparison of two pre-release identifier lists; a list that
runs out first sorts lower (`rc.1 < rc.1.0`). -/
def cmpPreList : List PreId → List PreId → Ordering
  | [], [] => .eq
  | [], _ :: _ => .lt
  | _ :: _, [] => .gt
  | a :: as, b :: bs => (cmpPreId a b).then (cmpPreList as bs)

/-- model of `comparePre`: a version without pre-release sorts above any pre-release of
the same numeric triple. -/
def cmpPre : List PreId → List PreId → Ordering
  | [], [] => .eq
  | [], _ :: _ => .gt
  | _ :: _, [] => .lt
  | a :: as, b :: bs => cmpPreList (a :: as) (b :: bs)

/-- model of `semver.compare` on parsed versions: numeric triple first, then
pre-release precedence. -/
def semverCmp (x y : SemVer) : Ordering :=
  (cmpNat x.major y.major).then
    ((cmpNat x.minor y.minor).then
      ((cmpNat x.patch y.patch).then (cmpPre x.pre y.pre)))

/-- numeric result of a three-way comparison, as the semver library returns
(`-1`, `0`, `1`). -/
def ordToInt : Ordering → Int
  | .lt => -1
  | .eq => 0
  | .gt => 1

/-- model of `a.localeCompare(b)`: sign of the string comparison.  The JS
result is locale-dependent; the claims only rely on it through reflexivity
(`a.localeCompare(a) = 0`), which holds in every locale and in this model. -/
def jsLocaleCompare (a b : String) : Int := ordToInt (cmpStr a b)

/-- model of `compareVersions` from `src/changelog.ts` (lines 80–91): clean or coerce
both arguments, compare as semver, falling back to string comparison when
either side cannot be parsed. -/
def compareVersions (a b : String) : Int :=
  match cleanVersion a, cleanVersion b with
  | some x, some y => ordToInt (semverCmp x y)
  | _, _ => jsLocaleCompare a b

/-- a version identifier in the comparator's sense: a string accepted by
`semver.clean` or `semver.coerce`. -/
def isVersionIdentifier (s : String) : Bool := (cleanVersion s).isSome

-- =========================================================================
-- dates: `parseMonthDayYearDate` and the ordering of `Date.getTime()`
-- =========================================================================

/-- JavaScript `\w` character class `[A-Za-z0-9_]`. -/
def isWordChar (c : Char) : Bool := c.isAlphanum || c == '_'

/-- the month-name table of `parseMonthDayYearDate` (month index is 0-based,
as in the JavaScript `Date` constructor). -/
def monthIndex (s : String) : Option Nat :=
  match s with
  | "January" => some 0 | "February" => some 1 | "March" => some 2
  | "April" => some 3 | "May" => some 4 | "June" => some 5
  | "July" => some 6 | "August" => some 7 | "September" => some 8
  | "October" => some 9 | "November" => some 10 | "December" => some 11
  | _ => none

/-- model of `parseMonthDayYearDate` from `src/changelog.ts` (lines 148–158): match
`^(\w+)\s+(\d{1,2}),\s+(\d{4})$`, look the month up in the table, and build a
date.  The result is the `(year, monthIndex, day)` triple the JavaScript code
passes to `new Date(year, month, day)`. -/
def parseMonthDayYearDate (dateStr : String) : Option (Nat × Nat × Nat) :=
  let l := dateStr.data
  let w := l.takeWhile isWordChar
  let r1 := l.dropWhile isWordChar
  if w.isEmpty then none
  else if (r1.takeWhile jsWs).isEmpty then none
  else
    let r2 := r1.dropWhile jsWs
    let ds := r2.takeWhile Char.isDigit
    let r3 := r2.dropWhile Char.isDigit
    if ds.isEmpty || ds.length > 2 then none
    else
      match r3 with
      | ',' :: r4 =>
        if (r4.takeWhile jsWs).isEmpty then none
        else
          let r5 := r4.dropWhile jsWs
          let ys := r5.takeWhile Char.isDigit
          let r6 := r5.dropWhile Char.isDigit
          if ys.length = 4 && r6.isEmpty then
            match monthIndex (String.mk w) with
            | some m => some (digitsToNat ys, m, digitsToNat ds)
            | none => none
          else none
      | _ => none

/-- Gregorian leap-year rule, as the proleptic calendar of JavaScript `Date`. -/
def isLeapYear (y : Nat) : Bool := y % 4 == 0 && (y % 100 != 0 || y % 400 == 0)

/-- cumulative days before a 0-based month in a common or leap year. -/
def daysBeforeMonth (leap : Bool) (m : Nat) : Nat :=
  (if leap then [0, 31, 60, 91, 121, 152, 182, 213, 244, 274, 305, 335]
   else [0, 31, 59, 90, 120, 151, 181, 212, 243, 273, 304, 334]).getD m 0

/-- two-digit years are mapped to 19xx by the `Date(year, month, day)`
constructor. -/
def jsFullYear (y : Nat) : Nat := if y < 100 then 1900 + y else y

/-- serial day number of a `(year, monthIndex, day)` triple.  Comparisons of
this number coincide with comparisons of `Date(year, month, day).getTime()`:
the serial is an exact day count (day overflow such as day 0 or day 40
normalizes into adjacent months exactly as `Date` does), and two distinct
serials are at least a full day apart, which dominates any time-zone offset
difference. -/
def dateSerial (p : Nat × Nat × Nat) : Nat :=
  let y := jsFullYear p.1
  365 * y + (y + 3) / 4 - (y + 99) / 100 + (y + 399) / 400
    + daysBeforeMonth (isLeapYear y) p.2.1 + p.2.2

/-- parser kinds of `ReleaseSource.parserType` (`src/config.ts`). -/
inductive ParserType
  | markdown
  | wayback
deriving DecidableEq

/-- model of `isNewerIdentifier` from `src/changelog.ts` (lines 95–113): semver
comparison for markdown sources; for wayback sources, calendar comparison when
both identifiers parse as `Month D, YYYY`, else plain string comparison. -/
def isNewerIdentifier (newId oldId : String) (parserType : ParserType) : Bool :=
  match parserType with
  | .markdown => decide (0 < compareVersions newId oldId)
  | .wayback =>
    match parseMonthDayYearDate newId, parseMonthDayYearDate oldId with
    | some newDate, some oldDate => decide (dateSerial oldDate < dateSerial newDate)
    | _, _ => jsLt oldId newId

-- =========================================================================
-- version entries: `extractAllVersions` and `getVersionsSince`
-- =========================================================================

/-- one changelog section: heading version plus accumulated body. -/
structure VersionEntry where
  version : String
  changes : String
deriving DecidableEq

/-- model of `String.prototype.trim` on `String`. -/
def jsTrimStr (s : String) : String := String.mk (jsTrim s.data)

/-- match one line against `^#+\s*\[?(\d+\.\d+\.\d+[^\]]*)\]?` and return the
captured version text (`extractAllVersions`, line 49). -/
def versionHeaderMatch (line : String) : Option String :=
  let l := line.data
  if (l.takeWhile (· = '#')).isEmpty then none
  else
    let r2In := (l.dropWhile (· = '#')).dropWhile jsWs
    let r2 := match r2In with
      | '[' :: rest => rest
      | _ => r2In
    let d1 := r2.takeWhile Char.isDigit
    let r3 := r2.dropWhile Char.isDigit
    if d1.isEmpty then none
    else
      match r3 with
      | '.' :: r4 =>
        let d2 := r4.takeWhile Char.isDigit
        let r5 := r4.dropWhile Char.isDigit
        if d2.isEmpty then none
        else
          match r5 with
          | '.' :: r6 =>
            let d3 := r6.takeWhile Char.isDigit
            let r7 := r6.dropWhile Char.isDigit
            if d3.isEmpty then none
            else some (String.mk (d1 ++ '.' :: (d2 ++ '.' :: (d3 ++ r7.takeWhile (· ≠ ']')))))
          | _ => none
      | _ => none

/-- join accumulated body lines (kept in reverse) and trim, as
`currentChanges.join("\n").trim()`. -/
def joinChanges (rev : List String) : String :=
  jsTrimStr (String.intercalate "\n" rev.reverse)

/-- line loop of `extractAllVersions`: a version heading closes the previous
section and opens a new one whose body starts with the heading line itself. -/
def extractVersionsLoop : List String → Option (String × List String) → List VersionEntry
  | [], none => []
  | [], some (v, rev) => [⟨v, joinChanges rev⟩]
  | line :: rest, st =>
    match versionHeaderMatch line with
    | some v =>
      (match st with
        | none => []
        | some (pv, prev) => [(⟨pv, joinChanges prev⟩ : VersionEntry)])
        ++ extractVersionsLoop rest (some (v, [line]))
    | none =>
      match st with
      | none => extractVersionsLoop rest none
      | some (pv, prev) => extractVersionsLoop rest (some (pv, line :: prev))

/-- model of `extractAllVersions` from `src/changelog.ts` (lines 42–76). -/
def extractAllVersions (content : String) : List VersionEntry :=
  extractVersionsLoop ((splitOnChar '\n' content.data).map String.mk) none

/-- model of `getVersionsSince` from `src/changelog.ts` (lines 116–129): on first run
return only the newest entry, else the entries strictly newer than the stored
version (an empty stored string is falsy in JavaScript and counts as a first
run). -/
def getVersionsSince (allVersions : List VersionEntry)
    (lastKnownVersion : Option String) : List VersionEntry :=
  if !jsTruthy lastKnownVersion then allVersions.take 1
  else allVersions.filter fun v =>
    decide (0 < compareVersions v.version (lastKnownVersion.getD ""))

-- =========================================================================
-- date entries and blog posts: the position-based novelty filters
-- =========================================================================

/-- one dated section of a release-notes page. -/
structure DateEntry where
  title : String
  date : String
deriving DecidableEq

/-- model of `getNewDateEntries` from `src/changelog.ts` (lines 255–269): on first run
only the newest entry, else every entry whose date is newer than the stored
date. -/
def getNewDateEntries (entries : List DateEntry) (storedDate : Option String)
    (parserType : ParserType) : List DateEntry :=
  match entries with
  | [] => []
  | _ :: _ =>
    if !jsTruthy storedDate then entries.take 1
    else entries.filter fun e =>
      isNewerIdentifier e.date (storedDate.getD "") parserType

/-- one blog post: heading title, date, optional canonical link. -/
structure BlogPost where
  title : String
  date : String
  url : Option String := none
deriving DecidableEq

/-- model of `getNewBlogPosts` from `src/changelog.ts` (lines 344–381): locate the
stored title; not found → newest only; found first → nothing; found at a later
position → the earlier posts, date-filtered against the stored post's date
when that date parses. -/
def getNewBlogPosts (posts : List BlogPost) (storedTitle : Option String) :
    List BlogPost :=
  match posts with
  | [] => []
  | _ :: _ =>
    if !jsTruthy storedTitle then posts.take 1
    else
      let s := storedTitle.getD ""
      match posts.findIdx? (fun p => p.title == s) with
      | none => posts.take 1
      | some 0 => []
      | some (k + 1) =>
        let candidates := posts.take (k + 1)
        match posts[k + 1]? with
        | none => candidates
        | some storedPost =>
          match parseMonthDayYearDate storedPost.date with
          | none => candidates
          | some storedSerialDate =>
            candidates.filter fun p =>
              match parseMonthDayYearDate p.date with
              | some pd => decide (dateSerial storedSerialDate < dateSerial pd)
              | none => false

-- =========================================================================
-- blog extraction: `stripHtml`, `extractOriginalUrl`, `extractBlogPosts`
-- =========================================================================

/-- case-insensitive prefix test against a lowercase pattern (the `i` regex
flag). -/
def ciIsPrefixOf : List Char → List Char → Bool
  | [], _ => true
  | _ :: _, [] => false
  | p :: ps, c :: cs => p == c.toLower && ciIsPrefixOf ps cs

/-- find the first case-insensitive occurrence of a pattern, returning the
text before it and the text after it. -/
def findCi (pat : List Char) : Nat → List Char → Option (List Char × List Char)
  | 0, _ => none
  | fuel + 1, l =>
    if ciIsPrefixOf pat l then some ([], l.drop pat.length)
    else
      match l with
      | [] => none
      | c :: rest =>
        match findCi pat fuel rest with
        | some (b, a) => some (c :: b, a)
        | none => none

/-- one `replace(/<tag[\s>][\s\S]*?<\/tag>/gi, "")` pass: drop every block
from an opening tag followed by whitespace-or-`>` up to the nearest closing
tag; an opening with no closing stays (the regex cannot match there). -/
def removeTagBlocks (tagOpen tagClose : List Char) : Nat → List Char → List Char
  | 0, l => l
  | _, [] => []
  | fuel + 1, l@(c :: rest) =>
    let noMatch := c :: removeTagBlocks tagOpen tagClose fuel rest
    if ciIsPrefixOf tagOpen l then
      match l.drop tagOpen.length with
      | x :: xs =>
        if jsWs x || x = '>' then
          match findCi tagClose (xs.length + 1) xs with
          | some (_, after) => removeTagBlocks tagOpen tagClose fuel after
          | none => noMatch
        else noMatch
      | [] => noMatch
    else noMatch

/-- model of `replace(/<[^>]*>/g, " ")`: a `<` with a later `>` becomes one space with
everything between dropped. -/
def stripTagsAux : Nat → List Char → List Char
  | 0, l => l
  | _, [] => []
  | fuel + 1, c :: rest =>
    if c = '<' then
      match rest.dropWhile (· ≠ '>') with
      | '>' :: after => ' ' :: stripTagsAux fuel after
      | _ => c :: stripTagsAux fuel rest
    else c :: stripTagsAux fuel rest

/-- model of `replace` with a global fixed pattern: non-overlapping left-to-right,
replacements are not rescanned. -/
def replaceAllAux (pat rep : List Char) : Nat → List Char → List Char
  | 0, l => l
  | _, [] => []
  | fuel + 1, l@(c :: rest) =>
    if pat.isPrefixOf l then rep ++ replaceAllAux pat rep fuel (l.drop pat.length)
    else c :: replaceAllAux pat rep fuel rest

/-- model of `replace(/\s+/g, " ")`: collapse every whitespace run to one space. -/
def collapseWsAux : Bool → List Char → List Char
  | _, [] => []
  | inWs, c :: rest =>
    if jsWs c then
      if inWs then collapseWsAux true rest
      else ' ' :: collapseWsAux true rest
    else c :: collapseWsAux false rest

/-- the five HTML entity decodings of `stripHtml`/`htmlToText`, applied in
source order. -/
def decodeEntities (l : List Char) : List Char :=
  let step := fun (acc : List Char) (pr : List Char × List Char) =>
    replaceAllAux pr.1 pr.2 (acc.length + 1) acc
  [("&amp;".data, "&".data), ("&lt;".data, "<".data), ("&gt;".data, ">".data),
    ("&quot;".data, "\"".data), ("&#039;".data, "\'".data), ("&nbsp;".data, " ".data)]
    |>.foldl step l

/-- model of `stripHtml` from `src/changelog.ts` (lines 168–181): drop script/style
blocks, turn tags into spaces, decode entities, collapse whitespace, trim. -/
def stripHtml (html : String) : String :=
  let l := html.data
  let p1 := removeTagBlocks "<script".data "</script>".data (l.length + 1) l
  let p2 := removeTagBlocks "<style".data "</style>".data (p1.length + 1) p1
  let p3 := stripTagsAux (p2.length + 1) p2
  let p4 := decodeEntities p3
  jsTrimStr (String.mk (collapseWsAux false p4))

/-- match `https?:\/\/.+` at the start of the list: the greedy `.` runs to the
next line break or the end. -/
def matchHttpAt (l : List Char) : Option (List Char) :=
  if "https://".data.isPrefixOf l then
    let body := (l.drop 8).takeWhile (· ≠ '\n')
    if body.isEmpty then none else some ("https://".data ++ body)
  else if "http://".data.isPrefixOf l then
    let body := (l.drop 7).takeWhile (· ≠ '\n')
    if body.isEmpty then none else some ("http://".data ++ body)
  else none

/-- match `\/web\/\d+\/(https?:\/\/.+)` at the start of the list, returning
the captured original URL. -/
def matchWebAt (l : List Char) : Option (List Char) :=
  if "/web/".data.isPrefixOf l then
    let r := l.drop 5
    let ds := r.takeWhile Char.isDigit
    if ds.isEmpty then none
    else
      match r.dropWhile Char.isDigit with
      | '/' :: r2 => matchHttpAt r2
      | _ => none
  else none

/-- leftmost occurrence search for the Wayback prefix pattern. -/
def findWeb : List Char → Option (List Char)
  | [] => none
  | l@(_ :: rest) =>
    match matchWebAt l with
    | some u => some u
    | none => findWeb rest

/-- model of `extractOriginalUrl` from `src/changelog.ts` (lines 162–165): strip a
Wayback `/web/<timestamp>/` prefix, else return the input unchanged. -/
def extractOriginalUrl (href : String) : String :=
  match findWeb href.data with
  | some u => String.mk u
  | none => href

/-- month names of the blog date pattern, in alternation order. -/
def monthNames : List String :=
  ["January", "February", "March", "April", "May", "June", "July", "August",
    "September", "October", "November", "December"]

/-- the month name (if any) occurring as a prefix; month names are mutually
non-prefix, so at most one alternative can match at a position. -/
def findMonthPrefix (l : List Char) : Option String :=
  monthNames.find? fun mn => mn.data.isPrefixOf l

/-- match `(Month)\s+\d{1,2},\s+20\d{2}` at the start of the list, returning
the matched text. -/
def matchMonthDateAt (l : List Char) : Option (List Char) := do
  let mn ← findMonthPrefix l
  let r := l.drop mn.length
  let ws1 := r.takeWhile jsWs
  if ws1.isEmpty then none
  else
    let r2 := r.dropWhile jsWs
    let ds := r2.takeWhile Char.isDigit
    if ds.isEmpty || ds.length > 2 then none
    else
      match r2.dropWhile Char.isDigit with
      | ',' :: r3 =>
        let ws2 := r3.takeWhile jsWs
        if ws2.isEmpty then none
        else
          match r3.dropWhile jsWs with
          | '2' :: '0' :: d1 :: d2 :: _ =>
            if d1.isDigit && d2.isDigit then
              some (mn.data ++ ws1 ++ ds ++ ',' :: (ws2 ++ '2' :: '0' :: d1 :: [d2]))
            else none
          | _ => none
      | _ => none

/-- first (leftmost) blog date match in a section. -/
def findFirstDate : List Char → Option (List Char)
  | [] => none
  | l@(_ :: rest) =>
    match matchMonthDateAt l with
    | some d => some d
    | none => findFirstDate rest

/-- test whether a quoted attribute value contains `claude.com/blog/` followed
by a lowercase letter or digit. -/
def hasBlogRef : List Char → Bool
  | [] => false
  | l@(_ :: rest) =>
    ("claude.com/blog/".data.isPrefixOf l &&
      match l.drop 16 with
      | c :: _ => (97 ≤ c.toNat && c.toNat ≤ 122) || c.isDigit
      | [] => false)
    || hasBlogRef rest

/-- first match of `href="([^"]*claude\.com\/blog\/[a-z0-9][^"]*)"` in a
section: the first quoted `href` value containing a blog link; the capture is
the whole quoted value, passed through `extractOriginalUrl`. -/
def findLink : List Char → Option String
  | [] => none
  | l@(_ :: rest) =>
    if "href=\"".data.isPrefixOf l then
      let q := l.drop 6
      let quoted := q.takeWhile (· ≠ '"')
      match q.dropWhile (· ≠ '"') with
      | '"' :: _ =>
        if hasBlogRef quoted then some (extractOriginalUrl (String.mk quoted))
        else findLink rest
      | _ => findLink rest
    else findLink rest

/-- match `<h[1-6][^>]*>` (case-insensitive) at the start of the list,
returning the remainder after the `>`. -/
def matchOpenHeading (l : List Char) : Option (List Char) :=
  match l with
  | '<' :: h :: d :: rest =>
    if h.toLower = 'h' && 49 ≤ d.toNat && d.toNat ≤ 54 then
      match rest.dropWhile (· ≠ '>') with
      | '>' :: after => some after
      | _ => none
    else none
  | _ => none

/-- test for `<\/h[1-6]>` (case-insensitive) at the start of the list. -/
def isCloseHeading (l : List Char) : Bool :=
  match l with
  | '<' :: '/' :: h :: d :: '>' :: _ =>
    h.toLower = 'h' && 49 ≤ d.toNat && d.toNat ≤ 54
  | _ => false

/-- the lazy `([\s\S]*?)<\/h[1-6]>`: inner content up to the nearest closing
heading tag, plus the remainder after that tag. -/
def findCloseHeading : Nat → List Char → Option (List Char × List Char)
  | 0, _ => none
  | fuel + 1, l =>
    if isCloseHeading l then some ([], l.drop 5)
    else
      match l with
      | [] => none
      | c :: rest =>
        match findCloseHeading fuel rest with
        | some (inner, after) => some (c :: inner, after)
        | none => none

/-- attempt a full heading match at this position, returning the raw matched
text, the inner capture and the remainder. -/
def tryHeadingAt (l : List Char) : Option (List Char × List Char × List Char) := do
  let afterOpen ← matchOpenHeading l
  let (inner, after) ← findCloseHeading (afterOpen.length + 1) afterOpen
  some (l.take (l.length - after.length), inner, after)

/-- leftmost heading match: text before it, raw match, inner capture,
remainder. -/
def findNextHeading : Nat → List Char → Option (List Char × List Char × List Char × List Char)
  | 0, _ => none
  | fuel + 1, l =>
    match tryHeadingAt l with
    | some (raw, inner, after) => some ([], raw, inner, after)
    | none =>
      match l with
      | [] => none
      | c :: rest =>
        match findNextHeading fuel rest with
        | some (b, raw, i, a) => some (c :: b, raw, i, a)
        | none => none

/-- next heading whose stripped title is nonempty (only those are pushed to
the `headings` array); skipped headings' raw text stays part of the text
before the kept one, since sections run between consecutive kept headings. -/
def findNextKept : Nat → List Char → Option (List Char × List Char × List Char)
  | 0, _ => none
  | fuel + 1, l =>
    match findNextHeading (l.length + 1) l with
    | none => none
    | some (before, raw, inner, after) =>
      if stripHtml (String.mk inner) ≠ "" then some (before, inner, after)
      else
        match findNextKept fuel after with
        | none => none
        | some (b2, i2, a2) => some (before ++ raw ++ b2, i2, a2)

/-- walk the kept headings, pairing each title with its section (the text up
to the next kept heading, or the end of the input). -/
def collectKept : Nat → List Char → List (String × List Char)
  | 0, _ => []
  | fuel + 1, l =>
    match findNextKept (l.length + 1) l with
    | none => []
    | some (_, inner, after) =>
      let sec :=
        match findNextKept (after.length + 1) after with
        | none => after
        | some (b2, _, _) => b2
      (stripHtml (String.mk inner), sec) :: collectKept fuel after

/-- heading-and-date phase of `extractBlogPosts` (lines 285–322): a kept
heading becomes a post exactly when its section contains a date; the post
carries the first date and, when present, the first blog link of the section. -/
def extractBlogPostsRaw (html : String) : List BlogPost :=
  (collectKept (html.data.length + 1) html.data).filterMap fun hs =>
    match findFirstDate hs.2 with
    | none => none
    | some d => some { title := hs.1, date := String.mk d, url := findLink hs.2 }

/-- deduplication loop of `extractBlogPosts` (lines 324–336), processing the
reversed post list with a seen-title set. -/
def dedupKeepLastAux : List BlogPost → List String → List BlogPost
  | [], _ => []
  | p :: rest, seen =>
    if seen.contains p.title then dedupKeepLastAux rest seen
    else p :: dedupKeepLastAux rest (p.title :: seen)

/-- model of `extractBlogPosts` from `src/changelog.ts` (lines 285–339): extract
heading+date posts, then deduplicate by title keeping the last occurrence. -/
def extractBlogPosts (html : String) : List BlogPost :=
  (dedupKeepLastAux (extractBlogPostsRaw html).reverse []).reverse

-- =========================================================================
-- hash-store: `readStoredData` / `writeStoredData` from `src/hash-store.ts`,
-- modelled on the persisted file content (the file system is the identity
-- collaborator: a write stores a string, the following read receives it).
-- =========================================================================

/-- runtime shape of the stored record.  The `StoredData` interface in
`src/hash-store.ts` declares `date` and `hash`; the caller in
`src/changelog.ts` reads and writes an `identifier` property, so the runtime
record is modelled with all three optional fields. -/
structure StoredData where
  date : Option String := none
  hash : Option String := none
  identifier : Option String := none
deriving DecidableEq

/-- JSON string escaping for the serialized fields (quote, backslash and the
common control characters; other control characters do not occur here). -/
def jsonEscape (s : String) : String :=
  String.mk (s.data.flatMap fun c =>
    if c = '"' then ['\\', '"']
    else if c = '\\' then ['\\', '\\']
    else if c = '\n' then ['\\', 'n']
    else if c = '\r' then ['\\', 'r']
    else if c = '\t' then ['\\', 't']
    else [c])

/-- model of `JSON.stringify(data)` for the stored record: own fields in
declaration order, absent fields skipped. -/
def jsonStringifyStored (d : StoredData) : String :=
  let fields :=
    (match d.date with | some v => [("date", v)] | none => []) ++
    (match d.hash with | some v => [("hash", v)] | none => []) ++
    (match d.identifier with | some v => [("identifier", v)] | none => [])
  "\x7b" ++
    String.intercalate ","
      (fields.map fun f => "\"" ++ f.1 ++ "\":\"" ++ jsonEscape f.2 ++ "\"") ++
  "\x7d"

/-- read one JSON string literal (closing on an unescaped quote). -/
def jsonReadString : Nat → List Char → Option (List Char × List Char)
  | 0, _ => none
  | _, [] => none
  | fuel + 1, c :: rest =>
    if c = '"' then some ([], rest)
    else if c = '\\' then
      match rest with
      | [] => none
      | e :: rest2 =>
        let dec :=
          if e = 'n' then some '\n'
          else if e = 'r' then some '\r'
          else if e = 't' then some '\t'
          else if e = '"' ∨ e = '\\' ∨ e = '/' then some e
          else none
        match dec with
        | none => none
        | some ch =>
          match jsonReadString fuel rest2 with
          | some (body, rem) => some (ch :: body, rem)
          | none => none
    else
      match jsonReadString fuel rest with
      | some (body, rem) => some (c :: body, rem)
      | none => none

/-- read the `"key":"value"` fields of a flat JSON object of string fields
(the only shape this store ever writes); `none` on anything else, as
`JSON.parse` would throw on malformed input. -/
def jsonReadFields : Nat → List Char → Option (List (String × String))
  | 0, _ => none
  | fuel + 1, l =>
    match l.dropWhile jsWs with
    | '"' :: rest => do
      let (key, r1) ← jsonReadString (rest.length + 1) rest
      match (r1.dropWhile jsWs) with
      | ':' :: r2 =>
        match r2.dropWhile jsWs with
        | '"' :: r3 => do
          let (value, r4) ← jsonReadString (r3.length + 1) r3
          match r4.dropWhile jsWs with
          | ',' :: r5 =>
            let more ← jsonReadFields fuel r5
            some ((String.mk key, String.mk value) :: more)
          | '\x7d' :: r5 =>
            if (r5.dropWhile jsWs).isEmpty then
              some [(String.mk key, String.mk value)]
            else none
          | _ => none
        | _ => none
      | _ => none
    | _ => none

/-- model of `JSON.parse(content) as StoredData` for this store's value space:
a flat object of string fields; later duplicate keys win, unknown keys are
ignored, non-object or malformed input fails. -/
def jsonParseStored (s : String) : Option StoredData :=
  match s.data.dropWhile jsWs with
  | '\x7b' :: rest =>
    match rest.dropWhile jsWs with
    | '\x7d' :: r2 => if (r2.dropWhile jsWs).isEmpty then some {} else none
    | _ => do
      let fields ← jsonReadFields (rest.length + 1) rest
      some (fields.foldl
        (fun d f =>
          if f.1 = "date" then { d with date := some f.2 }
          else if f.1 = "hash" then { d with hash := some f.2 }
          else if f.1 = "identifier" then { d with identifier := some f.2 }
          else d)
        {})
  | _ => none

/-- model of `readStoredData` from `src/hash-store.ts` (lines 16–31), as a function of
the stored file's content: trim, JSON branch when the content starts with a
brace (`none` when parsing throws), otherwise the legacy plain-hash branch. -/
def readStoredData (content : String) : Option StoredData :=
  let c := jsTrimStr content
  if c.data.headD ' ' = '\x7b' then jsonParseStored c
  else some { hash := some c }

/-- model of `writeStoredData` from `src/hash-store.ts` (lines 33–44), as the content
written to the store file: JSON when `data.date` is truthy, else the plain
string `data.hash || ""`. -/
def writeStoredData (data : StoredData) : String :=
  if jsTruthy data.date then jsonStringifyStored data
  else data.hash.getD ""

-- =========================================================================
-- the orchestrator: `parseMarkdown` and the pure tail of `checkSource`
-- =========================================================================

/-- the display content of a successful parse. -/
structure ParsedContent where
  version : String
  formattedChanges : String
deriving DecidableEq

/-- result of a parser (`ParserResult` in `src/changelog.ts`). -/
structure ParserResult where
  success : Bool
  version : Option String := none
  content : Option ParsedContent := none
  error : Option String := none
  skipRegressionCheck : Bool := false
deriving DecidableEq

/-- result of one source check (`CheckResult` in `src/changelog.ts`, without
the echoed `source` field). -/
structure CheckResult where
  hasChanged : Bool
  version : Option String := none
  formattedChanges : Option String := none
  error : Option String := none
  isTransient : Bool := false
deriving DecidableEq

/-- model of `parseMarkdown` from `src/changelog.ts` (lines 423–469), with the fetched
content passed in (`none` models a failed fetch). -/
def parseMarkdown (content : Option String) (storedVersion : Option String) :
    ParserResult :=
  match content with
  | none => { success := false, error := some "Failed to fetch Claude Code changelog" }
  | some c =>
    match extractAllVersions c with
    | [] => { success := false, error := some "No versions found in changelog" }
    | newest :: restAll =>
      let missedVersions := getVersionsSince (newest :: restAll) storedVersion
      match missedVersions with
      | [] =>
        { success := true, version := some newest.version,
          content := some ⟨newest.version, newest.changes⟩ }
      | m :: mrest =>
        let reversedMissed := (m :: mrest).reverse
        let combinedChanges :=
          String.intercalate "\n\n---\n\n" (reversedMissed.map (·.changes))
        let versionDisplay :=
          match mrest with
          | [] => m.version
          | _ :: _ =>
            match reversedMissed with
            | r0 :: _ => r0.version ++ " → " ++ m.version
            | [] => m.version
        { success := true, version := some m.version,
          content := some ⟨versionDisplay, combinedChanges⟩ }

/-- pure tail of `checkSource` from `src/changelog.ts` (lines 695–733): given
the normalized stored identifier and the parser's result, produce the check
result and the record written to the store (`none` when nothing is written). -/
def checkSourceCore (storedVersion : Option String) (result : ParserResult)
    (parserType : ParserType) (isTransient : Bool) (skipSave : Bool) :
    CheckResult × Option StoredData :=
  if !result.success then
    ({ hasChanged := false, error := result.error, isTransient := isTransient }, none)
  else if (match storedVersion, result.version with
    | some s, some v => s == v
    | _, _ => false) then
    ({ hasChanged := false }, none)
  else if !result.skipRegressionCheck && jsTruthy storedVersion && jsTruthy result.version
      && !(isNewerIdentifier (result.version.getD "") (storedVersion.getD "") parserType) then
    ({ hasChanged := false }, none)
  else
    ({ hasChanged := true,
        version := result.content.map (·.version),
        formattedChanges := result.content.map (·.formattedChanges) },
      if skipSave then none else some { identifier := result.version })

/-- model of `checkSource` specialized to a markdown source, as a function of the
fetched changelog content and the raw stored identifier
(`storedData?.identifier`); `storedVersion` is its `|| null` normalization. -/
def checkSourceMarkdown (content : Option String) (rawStored : Option String)
    (skipSave : Bool) : CheckResult × Option StoredData :=
  let storedVersion := if jsTruthy rawStored then rawStored else none
  checkSourceCore storedVersion (parseMarkdown content storedVersion) .markdown false skipSave

-- =========================================================================
-- order-theoretic facts about the comparators
-- =========================================================================

theorem char_toNat_inj {a b : Char} (h : a.toNat = b.toNat) : a = b :=
  Char.eq_of_val_eq (UInt32.eq_of_toBitVec_eq (BitVec.eq_of_toNat_eq h))

theorem ltChars_irrefl (l : List Char) : ltChars l l = false := by
  induction l with
  | nil => rfl
  | cons a as ih => simp [ltChars, ih]

theorem ltChars_asymm : ∀ {a b : List Char}, ltChars a b = true → ltChars b a = false
  | [], [], h => by simp [ltChars] at h
  | [], _ :: _, _ => rfl
  | _ :: _, [], h => by simp [ltChars] at h
  | x :: xs, y :: ys, h => by
    simp only [ltChars] at h ⊢
    split at h
    · next hlt => simp [Nat.not_lt.2 (Nat.le_of_lt hlt), Nat.lt_of_lt_of_le hlt (Nat.le_refl _)]
    · split at h
      · exact absurd h (by simp)
      · next h1 h2 =>
        simp only [h1, if_neg h2, if_neg h1]
        exact ltChars_asymm h

theorem ltChars_trans : ∀ {a b c : List Char},
    ltChars a b = true → ltChars b c = true → ltChars a c = true
  | [], _ :: _, _ :: _, _, _ => rfl
  | [], _ :: _, [], _, h2 => by simp [ltChars] at h2
  | _ :: _, [], _, h1, _ => by simp [ltChars] at h1
  | [], [], _, h1, _ => by simp [ltChars] at h1
  | x :: xs, y :: ys, [], _, h2 => by simp [ltChars] at h2
  | x :: xs, y :: ys, z :: zs, h1, h2 => by
    simp only [ltChars] at h1 h2 ⊢
    by_cases hxy : x.toNat < y.toNat <;> by_cases hyz : y.toNat < z.toNat
    · simp [Nat.lt_trans hxy hyz]
    · simp only [if_pos hxy] at h1
      simp only [if_neg hyz] at h2
      split at h2
      · exact absurd h2 (by simp)
      · next hzy =>
        have : y.toNat = z.toNat := by omega
        simp [this ▸ hxy]
    · simp only [if_neg hxy] at h1
      split at h1
      · exact absurd h1 (by simp)
      · next hyx =>
        have : x.toNat = y.toNat := by omega
        simp [this ▸ hyz]
    · simp only [if_neg hxy] at h1
      split at h1
      · exact absurd h1 (by simp)
      · next hyx =>
        simp only [if_neg hyz] at h2
        split at h2
        · exact absurd h2 (by simp)
        · next hzy =>
          have hxz : ¬ x.toNat < z.toNat := by omega
          have hzx : ¬ z.toNat < x.toNat := by omega
          simp only [if_neg hxz, if_neg hzx]
          exact ltChars_trans h1 h2

theorem ltChars_eq_of_not : ∀ {a b : List Char},
    ltChars a b = false → ltChars b a = false → a = b
  | [], [], _, _ => rfl
  | [], _ :: _, h1, _ => by simp [ltChars] at h1
  | _ :: _, [], _, h2 => by simp [ltChars] at h2
  | x :: xs, y :: ys, h1, h2 => by
    simp only [ltChars] at h1 h2
    by_cases hxy : x.toNat < y.toNat
    · simp [hxy] at h1
    · by_cases hyx : y.toNat < x.toNat
      · simp [hyx] at h2
      · simp only [if_neg hxy, if_neg hyx] at h1
        simp only [if_neg hyx, if_neg hxy] at h2
        have hxy2 : x = y := char_toNat_inj (by omega)
        exact hxy2 ▸ congrArg (x :: ·) (ltChars_eq_of_not h1 h2)

theorem cmpStr_eq_lt {s t : String} : cmpStr s t = .lt ↔ jsLt s t = true := by
  unfold cmpStr
  split
  · simp [*]
  · split <;> simp [*]

theorem cmpStr_eq_eq {s t : String} : cmpStr s t = .eq ↔ s = t := by
  constructor
  · intro h
    unfold cmpStr at h
    split at h
    · cases h
    · split at h
      · cases h
      · next h1 h2 =>
        obtain ⟨ld⟩ := s
        obtain ⟨md⟩ := t
        exact congrArg String.mk
          (ltChars_eq_of_not (Bool.of_not_eq_true h1) (Bool.of_not_eq_true h2))
  · rintro rfl
    simp [cmpStr, jsLt, ltChars_irrefl]

theorem cmpStr_swap (s t : String) : cmpStr t s = (cmpStr s t).swap := by
  unfold cmpStr jsLt
  by_cases h1 : ltChars s.data t.data = true
  · simp [h1, ltChars_asymm h1, Ordering.swap]
  · by_cases h2 : ltChars t.data s.data = true <;>
      simp [h1, h2, Ordering.swap]

theorem cmpStr_lt_trans {s t u : String}
    (h1 : cmpStr s t = .lt) (h2 : cmpStr t u = .lt) : cmpStr s u = .lt := by
  rw [cmpStr_eq_lt] at h1 h2 ⊢
  exact ltChars_trans h1 h2

theorem cmpPreId_refl (a : PreId) : cmpPreId a a = .eq := by
  cases a with
  | inl n => simp [cmpPreId, cmpNat, Nat.compare_eq_eq]
  | inr s => simp [cmpPreId, cmpStr_eq_eq]

theorem cmpPreId_eq_eq : ∀ {a b : PreId}, cmpPreId a b = .eq ↔ a = b
  | .inl m, .inl n => by simp [cmpPreId, cmpNat, Nat.compare_eq_eq]
  | .inl _, .inr _ => by simp [cmpPreId]
  | .inr _, .inl _ => by simp [cmpPreId]
  | .inr s, .inr t => by simp [cmpPreId, cmpStr_eq_eq]

theorem cmpPreId_swap : ∀ (a b : PreId), cmpPreId b a = (cmpPreId a b).swap
  | .inl m, .inl n => (Nat.compare_swap m n).symm
  | .inl _, .inr _ => rfl
  | .inr _, .inl _ => rfl
  | .inr s, .inr t => cmpStr_swap s t

theorem cmpPreId_lt_trans : ∀ {a b c : PreId},
    cmpPreId a b = .lt → cmpPreId b c = .lt → cmpPreId a c = .lt
  | .inl m, .inl n, .inl k, h1, h2 => by
    simp only [cmpPreId, cmpNat, Nat.compare_eq_lt] at h1 h2 ⊢
    omega
  | .inl _, .inl _, .inr _, _, _ => rfl
  | .inl _, .inr _, .inl _, _, h2 => by cases h2
  | .inl _, .inr _, .inr _, _, _ => rfl
  | .inr _, .inl _, _, h1, _ => by cases h1
  | .inr _, .inr _, .inl _, _, h2 => by cases h2
  | .inr s, .inr t, .inr u, h1, h2 => cmpStr_lt_trans h1 h2

theorem cmpPreList_refl : ∀ (l : List PreId), cmpPreList l l = .eq
  | [] => rfl
  | a :: as => by
    simp [cmpPreList, cmpPreId_refl a, Ordering.then, cmpPreList_refl as]

theorem cmpPreList_eq_eq : ∀ {a b : List PreId}, cmpPreList a b = .eq ↔ a = b
  | [], [] => by simp [cmpPreList]
  | [], _ :: _ => by simp [cmpPreList]
  | _ :: _, [] => by simp [cmpPreList]
  | x :: xs, y :: ys => by
    simp [cmpPreList, Ordering.then_eq_eq, cmpPreId_eq_eq, cmpPreList_eq_eq]

theorem cmpPreList_swap : ∀ (a b : List PreId), cmpPreList b a = (cmpPreList a b).swap
  | [], [] => rfl
  | [], _ :: _ => rfl
  | _ :: _, [] => rfl
  | x :: xs, y :: ys => by
    simp only [cmpPreList, Ordering.swap_then]
    rw [cmpPreId_swap, cmpPreList_swap]

theorem cmpPreList_lt_trans : ∀ {a b c : List PreId},
    cmpPreList a b = .lt → cmpPreList b c = .lt → cmpPreList a c = .lt
  | [], [], _, h1, _ => by cases h1
  | [], _ :: _, [], _, h2 => by cases h2
  | [], _ :: _, _ :: _, _, _ => rfl
  | _ :: _, [], _, h1, _ => by cases h1
  | _ :: _, _ :: _, [], _, h2 => by cases h2
  | x :: xs, y :: ys, z :: zs, h1, h2 => by
    simp only [cmpPreList, Ordering.then_eq_lt] at h1 h2 ⊢
    rcases h1 with h1 | ⟨h1e, h1r⟩
    · rcases h2 with h2 | ⟨h2e, h2r⟩
      · exact Or.inl (cmpPreId_lt_trans h1 h2)
      · exact Or.inl ((cmpPreId_eq_eq.1 h2e) ▸ h1)
    · rcases h2 with h2 | ⟨h2e, h2r⟩
      · exact Or.inl ((cmpPreId_eq_eq.1 h1e) ▸ h2)
      · refine Or.inr ⟨(cmpPreId_eq_eq.1 h1e) ▸ h2e, cmpPreList_lt_trans h1r h2r⟩

theorem cmpPre_eq_eq : ∀ {a b : List PreId}, cmpPre a b = .eq ↔ a = b
  | [], [] => by simp [cmpPre]
  | [], _ :: _ => by simp [cmpPre]
  | _ :: _, [] => by simp [cmpPre]
  | x :: xs, y :: ys => by simp [cmpPre, cmpPreList_eq_eq]

theorem cmpPre_swap : ∀ (a b : List PreId), cmpPre b a = (cmpPre a b).swap
  | [], [] => rfl
  | [], _ :: _ => rfl
  | _ :: _, [] => rfl
  | x :: xs, y :: ys => cmpPreList_swap (x :: xs) (y :: ys)

theorem cmpPre_lt_trans : ∀ {a b c : List PreId},
    cmpPre a b = .lt → cmpPre b c = .lt → cmpPre a c = .lt
  | [], [], _, h1, _ => by cases h1
  | [], _ :: _, _, h1, _ => by cases h1
  | _ :: _, [], [], _, h2 => by cases h2
  | _ :: _, [], _ :: _, _, h2 => by cases h2
  | _ :: _, _ :: _, [], _, _ => rfl
  | x :: xs, y :: ys, z :: zs, h1, h2 => cmpPreList_lt_trans h1 h2

theorem semverCmp_eq_eq {x y : SemVer} : semverCmp x y = .eq ↔ x = y := by
  obtain ⟨xM, xm, xp, xpre⟩ := x
  obtain ⟨yM, ym, yp, ypre⟩ := y
  simp [semverCmp, Ordering.then_eq_eq, cmpNat, Nat.compare_eq_eq, cmpPre_eq_eq, SemVer.mk.injEq,
    and_assoc]

theorem semverCmp_swap (x y : SemVer) : semverCmp y x = (semverCmp x y).swap := by
  simp only [semverCmp, cmpNat, Ordering.swap_then]
  rw [Nat.compare_swap, Nat.compare_swap, Nat.compare_swap, ← cmpPre_swap]

theorem semverCmp_lt_trans {x y z : SemVer}
    (h1 : semverCmp x y = .lt) (h2 : semverCmp y z = .lt) : semverCmp x z = .lt := by
  simp only [semverCmp, Ordering.then_eq_lt, cmpNat, Nat.compare_eq_lt, Nat.compare_eq_eq]
    at h1 h2 ⊢
  rcases h1 with h1 | ⟨e1, h1 | ⟨e1b, h1 | ⟨e1c, h1⟩⟩⟩ <;>
    rcases h2 with h2 | ⟨e2, h2 | ⟨e2b, h2 | ⟨e2c, h2⟩⟩⟩
  all_goals try (left; omega)
  all_goals try (right; exact ⟨by omega, by left; omega⟩)
  all_goals try (right; refine ⟨by omega, ?_⟩; right; refine ⟨by omega, ?_⟩; left; omega)
  · right; refine ⟨by omega, ?_⟩; right; refine ⟨by omega, ?_⟩; right
    exact ⟨by omega, cmpPre_lt_trans h1 h2⟩

theorem semverCmp_refl (x : SemVer) : semverCmp x x = .eq := semverCmp_eq_eq.2 rfl

-- =========================================================================
-- supporting lemmas
-- =========================================================================

theorem dedupKeepLastAux_not_seen :
    ∀ (l : List BlogPost) (seen : List String), ∀ q ∈ dedupKeepLastAux l seen,
      seen.contains q.title = false := by
  intro l
  induction l with
  | nil => intro seen q hq; simp [dedupKeepLastAux] at hq
  | cons p rest ih =>
    intro seen q hq
    simp only [dedupKeepLastAux] at hq
    by_cases hc : seen.contains p.title
    · rw [if_pos hc] at hq
      exact ih seen q hq
    · rw [if_neg hc] at hq
      rcases List.mem_cons.1 hq with rfl | hq2
      · exact Bool.of_not_eq_true hc
      · have := ih (p.title :: seen) q hq2
        simp only [List.contains_cons, Bool.or_eq_false_iff] at this
        exact this.2

theorem dedupKeepLastAux_sublist :
    ∀ (l : List BlogPost) (seen : List String),
      List.Sublist (dedupKeepLastAux l seen) l := by
  intro l
  induction l with
  | nil => intro seen; exact List.Sublist.refl []
  | cons p rest ih =>
    intro seen
    simp only [dedupKeepLastAux]
    by_cases hc : seen.contains p.title
    · rw [if_pos hc]; exact (ih seen).cons p
    · rw [if_neg hc]; exact (ih (p.title :: seen)).cons₂ p

theorem dedupKeepLastAux_nodup :
    ∀ (l : List BlogPost) (seen : List String),
      ((dedupKeepLastAux l seen).map BlogPost.title).Nodup := by
  intro l
  induction l with
  | nil => intro seen; simp [dedupKeepLastAux]
  | cons p rest ih =>
    intro seen
    simp only [dedupKeepLastAux]
    by_cases hc : seen.contains p.title
    · rw [if_pos hc]; exact ih seen
    · rw [if_neg hc]
      refine List.nodup_cons.2 ⟨?_, ih (p.title :: seen)⟩
      intro hmem
      rcases List.mem_map.1 hmem with ⟨q, hq, hqt⟩
      have := dedupKeepLastAux_not_seen rest (p.title :: seen) q hq
      simp [List.contains_cons, hqt] at this

theorem dedupKeepLastAux_keeps_first :
    ∀ (l : List BlogPost) (seen : List String) (t : String),
      seen.contains t = false → (∃ p ∈ l, p.title = t) →
      ∃ q, l.find? (fun r => r.title == t) = some q ∧ q ∈ dedupKeepLastAux l seen := by
  intro l
  induction l with
  | nil => intro seen t _ h; simp at h
  | cons x rest ih =>
    intro seen t hseen hex
    by_cases hx : (x.title == t) = true
    · refine ⟨x, List.find?_cons_of_pos rest hx, ?_⟩
      have hxt : x.title = t := eq_of_beq hx
      simp only [dedupKeepLastAux, hxt, hseen]
      simp
    · have hx' : (x.title == t) = false := Bool.of_not_eq_true hx
      rcases hex with ⟨p, hp, hpt⟩
      have hpr : p ∈ rest := by
        rcases List.mem_cons.1 hp with rfl | h
        · exact absurd (by simp [hpt]) hx
        · exact h
      rw [List.find?_cons_of_neg rest hx]
      simp only [dedupKeepLastAux]
      by_cases hc : seen.contains x.title
      · rw [if_pos hc]
        exact ih seen t hseen ⟨p, hpr, hpt⟩
      · rw [if_neg hc]
        have hbt : (t == x.title) = false := by
          rcases h2 : t == x.title
          · rfl
          · exact absurd (by simp [eq_of_beq h2]) hx
        have hseen2 : (x.title :: seen).contains t = false := by
          rw [List.contains_cons, hbt, hseen]; rfl
        rcases ih (x.title :: seen) t hseen2 ⟨p, hpr, hpt⟩ with ⟨q, hfind, hmem⟩
        exact ⟨q, hfind, List.mem_cons.2 (Or.inr hmem)⟩

theorem findIdx?_none_of_all {α : Type} (p : α → Bool) (l : List α)
    (h : ∀ a ∈ l, p a = false) : l.findIdx? p = none :=
  List.findIdx?_eq_none_iff.2 (by intro x hx; simpa using h x hx)

theorem ordToInt_swap (o : Ordering) : ordToInt o.swap = -(ordToInt o) := by
  cases o <;> rfl

theorem ordToInt_pos_iff {o : Ordering} : 0 < ordToInt o ↔ o = .gt := by
  cases o <;> decide

theorem compareVersions_some {a b : String} {x y : SemVer}
    (hx : cleanVersion a = some x) (hy : cleanVersion b = some y) :
    compareVersions a b = ordToInt (semverCmp x y) := by
  simp [compareVersions, hx, hy]

-- =========================================================================
-- claims
-- =========================================================================

/-- C10: each of `getVersionsSince`, `getNewDateEntries` and `getNewBlogPosts`
returns an order-preserving subsequence of its input list, for every input and
every stored marker: every returned entry is an input element, relative order
is preserved, and nothing is duplicated or fabricated (`List.Sublist` captures
exactly this). -/
theorem claim_C10_filters_sublist :
    (∀ (l : List VersionEntry) (s : Option String),
      List.Sublist (getVersionsSince l s) l) ∧
    (∀ (l : List DateEntry) (s : Option String) (k : ParserType),
      List.Sublist (getNewDateEntries l s k) l) ∧
    (∀ (l : List BlogPost) (s : Option String),
      List.Sublist (getNewBlogPosts l s) l) := by
  refine ⟨?_, ?_, ?_⟩
  · intro l s
    unfold getVersionsSince
    split
    · exact List.take_sublist 1 l
    · exact List.filter_sublist l
  · intro l s k
    cases l with
    | nil => exact List.nil_sublist []
    | cons e es =>
      simp only [getNewDateEntries]
      split
      · exact List.take_sublist _ _
      · exact List.filter_sublist _
  · intro l s
    cases l with
    | nil => exact List.nil_sublist []
    | cons p ps =>
      simp only [getNewBlogPosts]
      split
      · exact List.take_sublist _ _
      · split
        · exact List.take_sublist _ _
        · exact List.nil_sublist _
        · split
          · exact List.take_sublist _ _
          · split
            · exact List.take_sublist _ _
            · exact (List.filter_sublist _).trans (List.take_sublist _ _)

/-- C8: for every blog HTML input, `extractBlogPosts` returns a list with
pairwise-distinct titles that is an order-preserving subsequence of the
scanned heading+date posts, and for every scanned post the entry kept for its
title is the last occurrence in scan order (the first hit of `find?` on the
reversed scan list). -/
theorem claim_C8_blog_dedup (html : String) :
    ((extractBlogPosts html).map BlogPost.title).Nodup ∧
    List.Sublist (extractBlogPosts html) (extractBlogPostsRaw html) ∧
    ∀ p ∈ extractBlogPostsRaw html,
      ∃ q, (extractBlogPostsRaw html).reverse.find? (fun r => r.title == p.title) =
          some q ∧ q ∈ extractBlogPosts html := by
  refine ⟨?_, ?_, ?_⟩
  · unfold extractBlogPosts
    rw [List.map_reverse]
    exact List.nodup_reverse.2 (dedupKeepLastAux_nodup _ _)
  · unfold extractBlogPosts
    have h := (dedupKeepLastAux_sublist (extractBlogPostsRaw html).reverse []).reverse
    rwa [List.reverse_reverse] at h
  · intro p hp
    rcases dedupKeepLastAux_keeps_first (extractBlogPostsRaw html).reverse [] p.title rfl
        ⟨p, List.mem_reverse.2 hp, rfl⟩ with ⟨q, hfind, hmem⟩
    exact ⟨q, hfind, by unfold extractBlogPosts; exact List.mem_reverse.2 hmem⟩

/-- C8 witness: on a concrete page whose featured title `A` repeats, the kept
`A` post is the last occurrence in scan order and belongs to the output. -/
theorem claim_C8_witness :
    ∃ q, (extractBlogPostsRaw
        "<h1>A</h1>January 1, 2026<h2>B</h2>February 2, 2026<h3>A</h3>March 3, 2026").reverse.find?
          (fun r => r.title == "A") = some q ∧
      q ∈ extractBlogPosts
        "<h1>A</h1>January 1, 2026<h2>B</h2>February 2, 2026<h3>A</h3>March 3, 2026" :=
  (claim_C8_blog_dedup
      "<h1>A</h1>January 1, 2026<h2>B</h2>February 2, 2026<h3>A</h3>March 3, 2026").2.2
    ⟨"A", "January 1, 2026", none⟩ (by decide)

/-- C3 counterexample: for dated pages the novelty filter does no identity
matching at all: with stored marker `2025.12.31` matching neither entry's
date, `getNewDateEntries` returns both strictly newer entries, not the single
newest one. -/
theorem claim_C3_counterexample :
    ("2026.01.02" : String) ≠ "2025.12.31" ∧
    ("2026.01.01" : String) ≠ "2025.12.31" ∧
    getNewDateEntries [⟨"t2", "2026.01.02"⟩, ⟨"t1", "2026.01.01"⟩]
        (some "2025.12.31") .wayback =
      [⟨"t2", "2026.01.02"⟩, ⟨"t1", "2026.01.01"⟩] ∧
    [(⟨"t2", "2026.01.02"⟩ : DateEntry), ⟨"t1", "2026.01.01"⟩] ≠
      [⟨"t2", "2026.01.02"⟩] := by decide

/-- C3 amended: only the blog filter has the stored-marker-not-found fallback:
a stored title matching no entry of a non-empty post list yields exactly the
single newest post.  The date filter performs no identity matching:
`getNewDateEntries` with a stored date returns every entry whose date compares
strictly newer, which may be more than the single newest entry. -/
theorem claim_C3_amended :
    (∀ (p : BlogPost) (ps : List BlogPost) (s : String),
      (∀ q ∈ p :: ps, q.title ≠ s) → getNewBlogPosts (p :: ps) (some s) = [p]) ∧
    (∀ (entries : List DateEntry) (s : String) (k : ParserType), s ≠ "" →
      getNewDateEntries entries (some s) k =
        entries.filter fun e => isNewerIdentifier e.date s k) := by
  constructor
  · intro p ps s hno
    by_cases hs : s = ""
    · subst hs
      simp [getNewBlogPosts, jsTruthy]
    · have hidx : (p :: ps).findIdx? (fun q => q.title == s) = none :=
        findIdx?_none_of_all _ _ (by intro q hq; simpa using hno q hq)
      simp [getNewBlogPosts, jsTruthy, hs, hidx]
  · intro entries s k hs
    cases entries with
    | nil => simp [getNewDateEntries]
    | cons e es => simp [getNewDateEntries, jsTruthy, hs]

/-- C3 witness: a stored title absent from a one-post list returns that single
post. -/
theorem claim_C3_witness :
    getNewBlogPosts [⟨"A", "January 1, 2026", none⟩] (some "Z") =
      [⟨"A", "January 1, 2026", none⟩] :=
  claim_C3_amended.1 ⟨"A", "January 1, 2026", none⟩ [] "Z" (by decide)

/-- C7: `getVersionsSince` on a non-empty newest-first list: with no stored
identifier exactly the newest entry; with a stored (non-empty, hence truthy)
identifier exactly the entries comparing strictly greater, in input order, and
empty when none do. -/
theorem claim_C7_versions_since (e : VersionEntry) (rest : List VersionEntry) :
    getVersionsSince (e :: rest) none = [e] ∧
    ∀ s : String, s ≠ "" →
      (∀ v : VersionEntry,
        v ∈ getVersionsSince (e :: rest) (some s) ↔
          v ∈ e :: rest ∧ 0 < compareVersions v.version s) ∧
      List.Sublist (getVersionsSince (e :: rest) (some s)) (e :: rest) ∧
      ((∀ v ∈ e :: rest, ¬ 0 < compareVersions v.version s) →
        getVersionsSince (e :: rest) (some s) = []) := by
  constructor
  · simp [getVersionsSince, jsTruthy]
  · intro s hs
    have hfilter : getVersionsSince (e :: rest) (some s) =
        (e :: rest).filter fun v => decide (0 < compareVersions v.version s) := by
      simp [getVersionsSince, jsTruthy, hs]
    refine ⟨?_, ?_, ?_⟩
    · intro v
      rw [hfilter]
      simp [List.mem_filter]
    · rw [hfilter]
      exact List.filter_sublist _
    · intro hnone
      rw [hfilter]
      exact List.filter_eq_nil_iff.2 (by intro a ha; simpa using hnone a ha)

/-- C7 witness: bootstrap returns the single entry, and the membership
characterization holds at a concrete entry and stored identifier. -/
theorem claim_C7_witness :
    getVersionsSince [⟨"2.0.0", "B"⟩] none = [⟨"2.0.0", "B"⟩] ∧
    ((⟨"2.0.0", "B"⟩ : VersionEntry) ∈ getVersionsSince [⟨"2.0.0", "B"⟩] (some "1.0.0") ↔
      (⟨"2.0.0", "B"⟩ : VersionEntry) ∈ [(⟨"2.0.0", "B"⟩ : VersionEntry)] ∧
        0 < compareVersions "2.0.0" "1.0.0") :=
  ⟨(claim_C7_versions_since ⟨"2.0.0", "B"⟩ []).1,
    ((claim_C7_versions_since ⟨"2.0.0", "B"⟩ []).2 "1.0.0" (by decide)).1 ⟨"2.0.0", "B"⟩⟩

/-- C9: `getNewBlogPosts` with the stored title found at index `k`: at the top
it returns nothing; at a later position it returns the `k` earlier posts,
filtered to strictly later calendar dates when the matched post's date parses
and unfiltered when it does not. -/
theorem claim_C9_blog_position (posts : List BlogPost) (s : String) (k : Nat)
    (hs : s ≠ "") (hidx : posts.findIdx? (fun p => p.title == s) = some k) :
    (k = 0 → getNewBlogPosts posts (some s) = []) ∧
    (∀ storedPost, posts[k]? = some storedPost → 0 < k →
      parseMonthDayYearDate storedPost.date = none →
      getNewBlogPosts posts (some s) = posts.take k) ∧
    (∀ storedPost sd, posts[k]? = some storedPost → 0 < k →
      parseMonthDayYearDate storedPost.date = some sd →
      getNewBlogPosts posts (some s) =
        (posts.take k).filter fun p =>
          match parseMonthDayYearDate p.date with
          | some pd => decide (dateSerial sd < dateSerial pd)
          | none => false) := by
  cases posts with
  | nil => simp at hidx
  | cons p ps =>
    refine ⟨?_, ?_, ?_⟩
    · rintro rfl
      simp [getNewBlogPosts, jsTruthy, hs, hidx]
    · intro storedPost hsp hk hparse
      obtain ⟨k2, rfl⟩ : ∃ k2, k = k2 + 1 := ⟨k - 1, by omega⟩
      simp [getNewBlogPosts, jsTruthy, hs, hidx, hsp, hparse]
    · intro storedPost sd hsp hk hparse
      obtain ⟨k2, rfl⟩ : ∃ k2, k = k2 + 1 := ⟨k - 1, by omega⟩
      simp [getNewBlogPosts, jsTruthy, hs, hidx, hsp, hparse]

/-- C2: whenever a stored watermark exists (the stored identifier is a
non-empty string) and the parser produced a candidate identifier: textual
equality with the watermark yields an unchanged result with no store write;
and with `skipRegressionCheck` unset, a (truthy) candidate that
`isNewerIdentifier` does not rank above the watermark also yields an unchanged
result with no store write — the persisted watermark never moves backward
under the identifier kind's ordering unless the extractor opted out. -/
theorem claim_C2_regression_guard (s v : String) (r : ParserResult)
    (k : ParserType) (t save : Bool) (hs : s ≠ "") (hv : r.version = some v) :
    (v = s →
      (checkSourceCore (some s) r k t save).1.hasChanged = false ∧
      (checkSourceCore (some s) r k t save).2 = none) ∧
    (r.skipRegressionCheck = false → v ≠ "" → isNewerIdentifier v s k = false →
      (checkSourceCore (some s) r k t save).1.hasChanged = false ∧
      (checkSourceCore (some s) r k t save).2 = none) := by
  constructor
  · rintro rfl
    by_cases hsucc : r.success
    · simp [checkSourceCore, hsucc, hv]
    · simp [checkSourceCore, hsucc]
  · intro hskip hvne hnew
    by_cases hsucc : r.success
    · by_cases heq : v = s
      · subst heq
        simp [checkSourceCore, hsucc, hv]
      · have hne : (s == v) = false := by
          simp [Ne.symm heq]
        simp [checkSourceCore, hsucc, hv, hskip, hne, jsTruthy, hs, hvne, hnew]
    · simp [checkSourceCore, hsucc]

/-- C2 witness: stored `1.0.0` with markdown candidate `0.9.0` (not newer,
guard enabled) is reported unchanged and writes nothing. -/
theorem claim_C2_witness :
    (checkSourceCore (some "1.0.0")
        { success := true, version := some "0.9.0" } .markdown false false).1.hasChanged =
      false ∧
    (checkSourceCore (some "1.0.0")
        { success := true, version := some "0.9.0" } .markdown false false).2 = none :=
  (claim_C2_regression_guard "1.0.0" "0.9.0"
      { success := true, version := some "0.9.0" } .markdown false false
      (by decide) rfl).2 rfl (by decide) (by decide)

/-- C6: for date-kind (wayback) identifiers, `isNewerIdentifier` compares by
calendar time when both sides parse as `Month D, YYYY` and by plain string
order otherwise; in particular the three concrete orderings of the claim
hold. -/
theorem claim_C6_date_comparison :
    (∀ (a b : String) (x y : Nat × Nat × Nat),
      parseMonthDayYearDate a = some x → parseMonthDayYearDate b = some y →
      isNewerIdentifier a b .wayback = decide (dateSerial y < dateSerial x)) ∧
    (∀ a b : String,
      parseMonthDayYearDate a = none ∨ parseMonthDayYearDate b = none →
      isNewerIdentifier a b .wayback = jsLt b a) ∧
    isNewerIdentifier "February 1, 2026" "January 30, 2026" .wayback = true ∧
    isNewerIdentifier "January 1, 2026" "December 31, 2025" .wayback = true ∧
    isNewerIdentifier "2026.01.01" "2025.12.31" .wayback = true := by
  refine ⟨?_, ?_, by decide, by decide, by decide⟩
  · intro a b x y hx hy
    simp [isNewerIdentifier, hx, hy]
  · intro a b h
    rcases h with h | h
    · simp [isNewerIdentifier, h]
    · cases hx : parseMonthDayYearDate a with
      | none => simp [isNewerIdentifier, hx, h]
      | some x => simp [isNewerIdentifier, hx, h]

/-- C6 witness: the calendar branch applied at two parseable dates. -/
theorem claim_C6_witness :
    isNewerIdentifier "March 2, 2026" "March 1, 2026" .wayback =
      decide (dateSerial (2026, 2, 1) < dateSerial (2026, 2, 2)) :=
  claim_C6_date_comparison.1 "March 2, 2026" "March 1, 2026"
    (2026, 2, 2) (2026, 2, 1) (by decide) (by decide)

/-- C5: `compareVersions` is deterministic (a pure function of its arguments
in this model, so repeated calls agree definitionally) and reflexive on every
identifier, and on version identifiers it is antisymmetric and transitive,
ranking `1.0.0-alpha < 1.0.0-beta < 1.0.0` and `1.0.0-rc.1 < 1.0.0-rc.2`. -/
theorem claim_C5_comparator_order :
    (∀ a : String, compareVersions a a = 0) ∧
    (∀ a b : String, isVersionIdentifier a = true → isVersionIdentifier b = true →
      compareVersions b a = -(compareVersions a b)) ∧
    (∀ a b c : String, isVersionIdentifier a = true → isVersionIdentifier b = true →
      isVersionIdentifier c = true →
      0 < compareVersions a b → 0 < compareVersions b c → 0 < compareVersions a c) ∧
    compareVersions "1.0.0-alpha" "1.0.0-beta" < 0 ∧
    compareVersions "1.0.0-beta" "1.0.0" < 0 ∧
    compareVersions "1.0.0-rc.1" "1.0.0-rc.2" < 0 := by
  refine ⟨?_, ?_, ?_, by decide, by decide, by decide⟩
  · intro a
    cases h : cleanVersion a with
    | some x => simp [compareVersions, h, semverCmp_refl x, ordToInt]
    | none => simp [compareVersions, h, jsLocaleCompare, cmpStr_eq_eq.2 rfl, ordToInt]
  · intro a b ha hb
    rcases Option.isSome_iff_exists.1 (by simpa [isVersionIdentifier] using ha) with ⟨x, hx⟩
    rcases Option.isSome_iff_exists.1 (by simpa [isVersionIdentifier] using hb) with ⟨y, hy⟩
    rw [compareVersions_some hy hx, compareVersions_some hx hy, semverCmp_swap, ordToInt_swap]
  · intro a b c ha hb hc h1 h2
    rcases Option.isSome_iff_exists.1 (by simpa [isVersionIdentifier] using ha) with ⟨x, hx⟩
    rcases Option.isSome_iff_exists.1 (by simpa [isVersionIdentifier] using hb) with ⟨y, hy⟩
    rcases Option.isSome_iff_exists.1 (by simpa [isVersionIdentifier] using hc) with ⟨z, hz⟩
    rw [compareVersions_some hx hy] at h1
    rw [compareVersions_some hy hz] at h2
    rw [compareVersions_some hx hz, ordToInt_pos_iff]
    have l1 : semverCmp y x = .lt := by
      rw [semverCmp_swap, ordToInt_pos_iff.1 h1]; rfl
    have l2 : semverCmp z y = .lt := by
      rw [semverCmp_swap, ordToInt_pos_iff.1 h2]; rfl
    have l3 : semverCmp z x = .lt := semverCmp_lt_trans l2 l1
    rw [semverCmp_swap, l3]; rfl

/-- C5 witness: antisymmetry and transitivity applied at concrete version
identifiers. -/
theorem claim_C5_witness :
    compareVersions "1.0.0" "1.2.0" = -(compareVersions "1.2.0" "1.0.0") ∧
    0 < compareVersions "2.0.0" "1.0.0" :=
  ⟨claim_C5_comparator_order.2.1 "1.2.0" "1.0.0" (by decide) (by decide),
    claim_C5_comparator_order.2.2.1 "2.0.0" "1.5.0" "1.0.0" (by decide) (by decide)
      (by decide) (by decide) (by decide)⟩

/-- C1: the end-to-end markdown scenario: three versions with stored watermark
`1.0.0` yield a changed result displaying `1.1.0 → 1.2.0`, a summary that
contains the body lines of 1.2.0 and 1.1.0 and omits 1.0.0's, and a store
write of identifier `1.2.0`. -/
theorem claim_C1_markdown_end_to_end :
    (checkSourceMarkdown
        (some "## [1.2.0]\n- X\n\n## [1.1.0]\n- Y\n\n## [1.0.0]\n- Z")
        (some "1.0.0") false).1 =
      { hasChanged := true, version := some "1.1.0 → 1.2.0",
        formattedChanges := some "## [1.1.0]\n- Y\n\n---\n\n## [1.2.0]\n- X" } ∧
    containsSub "## [1.1.0]\n- Y\n\n---\n\n## [1.2.0]\n- X" "- X" = true ∧
    containsSub "## [1.1.0]\n- Y\n\n---\n\n## [1.2.0]\n- X" "- Y" = true ∧
    containsSub "## [1.1.0]\n- Y\n\n---\n\n## [1.2.0]\n- X" "- Z" = false ∧
    (checkSourceMarkdown
        (some "## [1.2.0]\n- X\n\n## [1.1.0]\n- Y\n\n## [1.0.0]\n- Z")
        (some "1.0.0") false).2 = some { identifier := some "1.2.0" } := by decide

/-- C4: the store does not round-trip the watermark: `writeStoredData` with
`identifier: "1.5.0"` writes the empty string (the `date`/`hash`-only write
path ignores the `identifier` field the caller passes), and reading it back
yields a record with no identifier, contradicting the claim, the spec and the
adjacent `hash-store.test.ts` expectations. -/
theorem claim_C4_store_roundtrip_bug :
    writeStoredData { identifier := some "1.5.0" } = "" ∧
    readStoredData (writeStoredData { identifier := some "1.5.0" }) =
      some { hash := some "" } ∧
    (readStoredData (writeStoredData { identifier := some "1.5.0" })).map
        StoredData.identifier ≠ some (some "1.5.0") := by decide

/-- C9 witness: stored title `B` at index 1 with a parseable date filters the
one earlier post by strictly-later calendar date. -/
theorem claim_C9_witness :
    getNewBlogPosts
        [⟨"A", "February 2, 2026", none⟩, ⟨"B", "January 1, 2026", none⟩] (some "B") =
      ([(⟨"A", "February 2, 2026", none⟩ : BlogPost),
          ⟨"B", "January 1, 2026", none⟩].take 1).filter
        (fun p =>
          match parseMonthDayYearDate p.date with
          | some pd => decide (dateSerial (2026, 0, 1) < dateSerial pd)
          | none => false) :=
  (claim_C9_blog_position
      [⟨"A", "February 2, 2026", none⟩, ⟨"B", "January 1, 2026", none⟩] "B" 1
      (by decide) (by decide)).2.2
    ⟨"B", "January 1, 2026", none⟩ (2026, 0, 1) (by decide) (by decide) (by decide)

end ChangelogWatcher
